import Mathlib

/-!
# Verification of the `pairs` analyzer (ZipRecruiter/splinter)

Shallow embedding of `pairs/pairs.go` (the current revision, with the
`-assume-pair` whitelist): the rule/whitelist flag parsers (`funcOffset.Set`,
`typeWhitelist.Set`), the call matcher inside `NewAnalyzer`'s `Run` closure,
and the pair validator `argsCorrect`.

The Go front end (go/ast, go/types) is modelled as an oracle: each argument
of a call carries the facts the analyzer reads from
`pass.TypesInfo.Types[arg]` — whether it is a compile-time constant and of
which constant kind, and its static type's shape (named type,
pointer-to-named, or other), whether its underlying type is the `string`
basic type, and its `types.TypeString` rendering.  Diagnostics are modelled
as (position, message) pairs exactly as produced by `pass.Reportf`.
-/

set_option autoImplicit false

namespace Splinter

/-- The kinds of `go/constant` values (`constant.Kind`). Only
`ConstKind.string` is distinguished by the analyzer
(`typ.Value.Kind() != constant.String`). -/
inductive ConstKind where
  | unknown | bool | string | int | float | complex
deriving DecidableEq

/-- Go source: `type whitelistableType struct{ pkg, typ string }`. -/
structure whitelistableType where
  pkg : String
  typ : String
deriving DecidableEq

/-- Shape of a Go static type, as far as `isWhitelisted` inspects it with
type assertions: a `*types.Named`, a `*types.Pointer` (whose element may or
may not be named), or anything else. -/
inductive TypeShape where
  /-- the type is a `*types.Named` with the given package path and name -/
  | named (t : whitelistableType)
  /-- the type is a `*types.Pointer`; the field is the package path and
  name of its element when the element is a `*types.Named` -/
  | pointer (elem : Option whitelistableType)
  | other
deriving DecidableEq

/-- The facts about a Go static type that the analyzer reads. -/
structure GoType where
  shape : TypeShape
  /-- `typ.Type.Underlying()` is a `*types.Basic` of kind `types.String` -/
  underlyingString : Bool
  /-- `types.TypeString(typ.Type, nil)` -/
  str : String
deriving DecidableEq

/-- One call argument, as described by `pass.TypesInfo.Types[a]`:
`value` models `typ.Value` (`some k` iff the argument is a compile-time
constant of kind `k`), `typ` models `typ.Type` (`none` iff the type is
absent).  `pos` models `a.Pos()`. -/
structure Arg where
  pos : Nat
  value : Option ConstKind
  typ : Option GoType
deriving DecidableEq

/-- A diagnostic as emitted by `p.Reportf(pos, format, args...)`. -/
structure Diag where
  pos : Nat
  msg : String
deriving DecidableEq

/-- Go source: `type typeWhitelist map[whitelistableType]bool`.  The map only
ever stores `true`, so it is a set; modelled as the list of registered keys
(insertion prepends; membership is `List.contains`). -/
abbrev typeWhitelist := List whitelistableType

/-- Membership in the whitelist map: `whitelistedTypes[wt]`. -/
def wlMem (w : typeWhitelist) (x : whitelistableType) : Bool :=
  List.any w (fun y => y = x)

/-- `types.TypeString(typ.Type, nil)` — `go/types` renders a nil type as
`"<nil>"`. -/
def typeString : Option GoType → String
  | none => "<nil>"
  | some t => t.str

/-- Embeds the closure `isWhitelisted` (pairs.go lines 105–121): the
argument's static type is whitelisted when it is a pointer to a named type
registered in the whitelist, or itself a named type registered in the
whitelist.  A nil type (or any other shape) is not whitelisted. -/
def isWhitelisted (w : typeWhitelist) (a : Arg) : Bool :=
  match a.typ with
  | none => false
  | some t =>
    match t.shape with
    | TypeShape.pointer (some pn) => wlMem w pn
    | TypeShape.named pn => wlMem w pn
    | _ => false

/-- Message of `"%d args passed to %s; must be even"`. -/
def arityMsg (total : Nat) (name : String) : String :=
  toString total ++ " args passed to " ++ name ++ "; must be even"

/-- Message of `"arg %d to %s is a whitelisted type; should pass one or none"`. -/
def mixingMsg (i : Nat) (name : String) : String :=
  "arg " ++ toString i ++ " to " ++ name ++ " is a whitelisted type; should pass one or none"

/-- Message of `"arg %d to %s is constant %s but should be a constant string"`. -/
def constMsg (i : Nat) (name ty : String) : String :=
  "arg " ++ toString i ++ " to " ++ name ++ " is constant " ++ ty ++ " but should be a constant string"

/-- Message of `"arg %d to %s is expression %s but should be a constant string"`. -/
def exprMsg (i : Nat) (name ty : String) : String :=
  "arg " ++ toString i ++ " to " ++ name ++ " is expression " ++ ty ++ " but should be a constant string"

/-- `isWhitelisted(p, c.Args[offset])` applied to the head of the relevant
argument list (the list is nonempty whenever this guard is reached). -/
def headWhitelisted (w : typeWhitelist) (rel : List Arg) : Bool :=
  match rel with
  | [] => false
  | a :: _ => isWhitelisted w a

/-- The first `for i, a := range c.Args[offset:]` loop of `argsCorrect`
(pairs.go lines 144–149): index of the first whitelisted relevant argument,
if any (the loop reports it and returns). -/
def findWl (w : typeWhitelist) : List Arg → Option Nat
  | [] => none
  | a :: rest =>
    if isWhitelisted w a then some 0
    else (findWl w rest).map (fun j => j + 1)

/-- Body of the key-checking loop of `argsCorrect` (pairs.go lines 151–184)
for the relevant argument `a` at relevant index `i`: value positions are
skipped; a constant must be of string kind; a non-constant expression with a
type must have underlying `string`; an argument with neither constant value
nor type produces nothing. -/
def checkKey (name : String) (offset i : Nat) (a : Arg) : List Diag :=
  if i % 2 ≠ 0 then []
  else
    match a.value with
    | some k =>
      if k ≠ ConstKind.string then
        [⟨a.pos, constMsg (i + offset) name (typeString a.typ)⟩]
      else []
    | none =>
      match a.typ with
      | some t =>
        if t.underlyingString then []
        else [⟨a.pos, exprMsg (i + offset) name t.str⟩]
      | none => []

/-- The key-checking loop: `for i, a := range c.Args[offset:]`, starting the
index at `i`. -/
def keyDiags (name : String) (offset : Nat) : Nat → List Arg → List Diag
  | _, [] => []
  | i, a :: rest => checkKey name offset i a ++ keyDiags name offset (i + 1) rest

/-- Embeds `argsCorrect` (pairs.go lines 126–185) as a pure function from
the call's facts to the list of emitted diagnostics, in emission order.
`callPos` models `c.Pos()`, `args` models `c.Args`. -/
def argsCorrect (w : typeWhitelist) (name : String) (offset callPos : Nat)
    (args : List Arg) : List Diag :=
  if args.length ≤ offset then []
  else if args.length - offset = 1 ∧ headWhitelisted w (args.drop offset) = true then []
  else if (args.length - offset) % 2 ≠ 0 then
    [⟨callPos, arityMsg args.length name⟩]
  else
    match findWl w (args.drop offset) with
    | some i => [⟨callPos, mixingMsg (i + offset) name⟩]
    | none => keyDiags name offset 0 (args.drop offset)

/-- Go source: `type funcSelector struct{ pkg, typ, fun string }` (`fun` is a
Lean keyword, rendered `fn`). -/
structure funcSelector where
  pkg : String
  typ : String
  fn : String
deriving DecidableEq

/-- Go source: `type funcOffset map[funcSelector]int`, modelled as an
association list: map insertion prepends, lookup takes the first hit, so a
later insertion for the same key shadows the earlier one exactly as a map
overwrite does. -/
abbrev funcOffset := List (funcSelector × Nat)

/-- Map lookup `offsets[sel]`. -/
def flookup (o : funcOffset) (s : funcSelector) : Option Nat :=
  match o with
  | [] => none
  | kv :: rest => if kv.1 = s then some kv.2 else flookup rest s

/-- The resolved identity of a call expression `c` with `c.Fun` a selector
`s`, as the `Run` closure distinguishes them: a package-level function call
(`i.Selections[s]` absent — `path` is the imported package path), or a
method call (`i.Selections[s]` present — `recv` is the receiver's named type
if `nv.Recv()` is a `*types.Named`, and `selStr` is
`types.SelectionString(nv, nil)`). -/
inductive Callee where
  | pkgFunc (path fn : String)
  | method (recv : Option whitelistableType) (fn selStr : String)

/-- The matching logic of the `Run` closure (pairs.go lines 205–243):
package functions are looked up as `{pkg: path, fun: name}`; for methods the
generic selector `{fun: name}` is probed first and only on a miss the
concrete `{pkg, typ, fun}` selector; a method whose receiver is not a named
type never matches.  Returns the offset and the display name used in
diagnostics. -/
def matchCall (o : funcOffset) : Callee → Option (Nat × String)
  | Callee.pkgFunc path fn =>
    (flookup o ⟨path, "", fn⟩).map (fun off => (off, path ++ "." ++ fn))
  | Callee.method none _ _ => none
  | Callee.method (some r) fn selStr =>
    match flookup o ⟨"", "", fn⟩ with
    | some off => some (off, selStr)
    | none => (flookup o ⟨r.pkg, r.typ, fn⟩).map (fun off => (off, selStr))

/-- One call expression through the `Run` closure: diagnostics emitted for
it (none when the call matches no registered selector). -/
def analyzeCall (o : funcOffset) (w : typeWhitelist) (call : Callee)
    (callPos : Nat) (args : List Arg) : List Diag :=
  match matchCall o call with
  | none => []
  | some (off, name) => argsCorrect w name off callPos args

/-! ## The flag parsers

`typeWhitelist.Set` uses `typeWhitelistMatcher = ^(.*?)\.([^\./]+)$` and
`funcOffset.Set` uses
`funcOffsetMatcher = ^(?:(.*?)(?:\.([^\./]+))?)?\.([^\.]+)=(\d+)$`
(Go `regexp`, leftmost-first submatch semantics, anchored at both ends).
Both regexes are embedded through their derived closed forms, justified in
the doc comments of `wlMatch` and `funcOffsetMatch`; splitting at the *last*
occurrence of a separator is the primitive both need. -/

/-- Split a list at the last occurrence of `c`: `some (p, q)` with
`l = p ++ c :: q` and `c ∉ q`, or `none` when `c ∉ l`. -/
def splitLast (c : Char) : List Char → Option (List Char × List Char)
  | [] => none
  | x :: xs =>
    match splitLast c xs with
    | some pq => some (x :: pq.1, pq.2)
    | none => if x = c then some ([], xs) else none

/-- Embeds `typeWhitelistMatcher.FindStringSubmatch`, the anchored regex
`^(.*?)\.([^\./]+)$`, returning the two capture groups.  Because group 2
excludes `.`, the `\.` of a successful match can only be the last dot of the
input, so the regex matches exactly when the segment after the last dot is
nonempty and free of `.` and `/`; group 1 is then forced to be everything
before that dot (the non-greedy `(.*?)` has a unique viable extent). -/
def wlMatch (l : List Char) : Option (List Char × List Char) :=
  match splitLast '.' l with
  | none => none
  | some pq =>
    if pq.2 ≠ [] ∧ ∀ ch ∈ pq.2, ch ≠ '.' ∧ ch ≠ '/' then some pq else none

/-- Embeds `typeWhitelist.Set` (pairs.go lines 80–88): on a regex miss the
configuration error; on a match, register the (package, type) pair. -/
def typeWhitelistSet (w : typeWhitelist) (v : String) : Except String typeWhitelist :=
  match wlMatch v.data with
  | none => Except.error "invalid type whitelist; should be of form <pkg>.<type>"
  | some pq => Except.ok (whitelistableType.mk pq.1.asString pq.2.asString :: w)

/-- Embeds `funcOffsetMatcher.FindStringSubmatch` on the anchored regex
`^(?:(.*?)(?:\.([^\./]+))?)?\.([^\.]+)=(\d+)$`, returning the four capture
groups `(pkg, typ, fn, digits)`.

Derivation of the closed form, with leftmost-first submatch semantics:
the mandatory tail `\.([^\.]+)=(\d+)$` contains no dot after its `\.`, so
its `\.` must consume the *last* dot of the input; within the tail, the
suffix after a viable `=` is all digits and hence `=`-free, so the viable
`=` is unique and, when the match succeeds, is the last `=` of the segment
after the last dot; group 3 (nonempty, dot-free) is what stands between
them and group 4 the nonempty digit run.  For the optional head
`(?:(.*?)(?:\.([^\./]+))?)?` consuming the prefix `P` before the last dot:
the inner option `(?:\.([^\./]+))?` requires its suffix to be dot- and
slash-free, which pins its `\.` to the last dot of `P`; the non-greedy
`(.*?)` prefers that decomposition (shorter group 1) when it is viable,
otherwise group 1 swallows all of `P` and group 2 is empty. -/
def funcOffsetMatch (s : String) : Option (String × String × String × String) :=
  match splitLast '.' s.data with
  | none => none
  | some Pu =>
    match splitLast '=' Pu.2 with
    | none => none
    | some CD =>
      if CD.1 ≠ [] ∧ CD.2 ≠ [] ∧ ∀ ch ∈ CD.2, ch.isDigit = true then
        match splitLast '.' Pu.1 with
        | some ab =>
          if ab.2 ≠ [] ∧ '/' ∉ ab.2 then
            some (ab.1.asString, ab.2.asString, CD.1.asString, CD.2.asString)
          else
            some (Pu.1.asString, "", CD.1.asString, CD.2.asString)
        | none => some (Pu.1.asString, "", CD.1.asString, CD.2.asString)
      else none

/-- Numeric value of a digit run. -/
def digitsToNat (l : List Char) : Nat :=
  l.foldl (fun acc c => 10 * acc + (c.toNat - 48)) 0

/-- `math.MaxInt64`: the Go `int` is 64 bits wide on the supported
platforms. -/
def maxInt64 : Nat := 9223372036854775807

/-- Models `strconv.Atoi` on the inputs the analyzer feeds it — capture
group 4, a nonempty run of ASCII digits: the parse only fails by
overflowing the 64-bit `int` range, with Go's range error. -/
def goAtoi (s : String) : Except String Nat :=
  if digitsToNat s.data ≤ maxInt64 then Except.ok (digitsToNat s.data)
  else Except.error ("strconv.Atoi: parsing \"" ++ s ++ "\": value out of range")

/-- Embeds `funcOffset.Set` (pairs.go lines 56–68): regex miss gives the
configuration error; an `Atoi` failure is propagated; otherwise the selector
built from groups 1–3 is mapped to the parsed offset. -/
def funcOffsetSet (o : funcOffset) (v : String) : Except String funcOffset :=
  match funcOffsetMatch v with
  | none => Except.error "invalid func offset; should be of form [pkg[.type]].<func>=<offset>"
  | some (p, t, f, d) =>
    match goAtoi d with
    | Except.error e => Except.error e
    | Except.ok n => Except.ok ((funcSelector.mk p t f, n) :: o)

/-! ## Spec-side definitions for refinement claims -/

/-- Modelled from the spec: the claimed classification of a single
key-position argument in §4.3 step 5 — a string constant is accepted, any
other constant is reported with the constant message, a non-constant whose
static type's underlying representation is a string primitive is accepted,
and any other non-constant expression is reported with the expression
message naming the type; value positions (odd relevant index) are never
checked. -/
def keyClassSpec (name : String) (offset i : Nat) (a : Arg) : List Diag :=
  if i % 2 ≠ 0 then []
  else
    match a.value with
    | some ConstKind.string => []
    | some _ => [⟨a.pos, constMsg (i + offset) name (typeString a.typ)⟩]
    | none =>
      if (a.typ.map GoType.underlyingString).getD false = true then []
      else [⟨a.pos, exprMsg (i + offset) name (typeString a.typ)⟩]

/-- Modelled from the spec: every key-position argument of the relevant list
is classified independently by `keyClassSpec`, so a single call may yield
several key diagnostics. -/
def keyDiagsSpec (name : String) (offset : Nat) : Nat → List Arg → List Diag
  | _, [] => []
  | i, a :: rest => keyClassSpec name offset i a ++ keyDiagsSpec name offset (i + 1) rest

/-- Every key-position (even-index) argument carries a constant value or a
static type — the collaborator contract of §6 under which the spec's
classification is total. -/
def keysHaveInfo : Nat → List Arg → Bool
  | _, [] => true
  | i, a :: rest =>
    ((i % 2 != 0) || a.value.isSome || a.typ.isSome) && keysHaveInfo (i + 1) rest

/-! ## Concrete argument fixtures (used by witnesses and counterexamples) -/

/-- A string constant key, e.g. `"frew"`. -/
def exStrKey (p : Nat) : Arg := ⟨p, some ConstKind.string, some ⟨TypeShape.other, true, "string"⟩⟩

/-- An `int` constant, e.g. `3`. -/
def exIntConst (p : Nat) : Arg := ⟨p, some ConstKind.int, some ⟨TypeShape.other, false, "int"⟩⟩

/-- A non-constant expression of static type `string`. -/
def exStrVar (p : Nat) : Arg := ⟨p, none, some ⟨TypeShape.other, true, "string"⟩⟩

/-- A non-constant expression of static type `float64`. -/
def exFloatExpr (p : Nat) : Arg := ⟨p, none, some ⟨TypeShape.other, false, "float64"⟩⟩

/-- A value of the named type `p.Pairs`. -/
def exPairs (p : Nat) : Arg :=
  ⟨p, none, some ⟨TypeShape.named ⟨"p", "Pairs"⟩, false, "p.Pairs"⟩⟩

/-- A value of type `*p.Pairs` (pointer to the named type). -/
def exPairsPtr (p : Nat) : Arg :=
  ⟨p, none, some ⟨TypeShape.pointer (some ⟨"p", "Pairs"⟩), false, "*p.Pairs"⟩⟩

/-- An argument with neither a constant value nor a static type. -/
def exInfoless (p : Nat) : Arg := ⟨p, none, none⟩

/-- A whitelist with `-assume-pair p.Pairs` registered. -/
def exWl : typeWhitelist := [⟨"p", "Pairs"⟩]

/-- A rule table with both the generic-method selector `.Log` and the
concrete-method selector `a/b.Y.Log` registered, at different offsets. -/
def exOffBoth : funcOffset := [(⟨"", "", "Log"⟩, 1), (⟨"a/b", "Y", "Log"⟩, 2)]

/-- A rule table with only the concrete-method selector `a/b.Y.Log`. -/
def exOffConc : funcOffset := [(⟨"a/b", "Y", "Log"⟩, 2)]

/-! ## Helper lemmas -/

theorem findWl_some_spec {w : typeWhitelist} :
    ∀ {l : List Arg} {j : Nat}, findWl w l = some j →
      ∃ a, l[j]? = some a ∧ isWhitelisted w a = true := by
  intro l
  induction l with
  | nil => intro j h; simp [findWl] at h
  | cons a rest ih =>
    intro j h
    by_cases hw : isWhitelisted w a = true
    · simp [findWl, hw] at h
      subst h
      exact ⟨a, by simp, hw⟩
    · simp [findWl, hw] at h
      obtain ⟨j', hj', rfl⟩ := h
      obtain ⟨b, hb, hbw⟩ := ih hj'
      exact ⟨b, by simpa using hb, hbw⟩

theorem findWl_eq_none_iff {w : typeWhitelist} :
    ∀ {l : List Arg}, findWl w l = none ↔ ∀ a ∈ l, isWhitelisted w a = false := by
  intro l
  induction l with
  | nil => simp [findWl]
  | cons a rest ih =>
    by_cases hw : isWhitelisted w a = true
    · simp [findWl, hw]
    · have hwf : isWhitelisted w a = false := by simpa using hw
      simp [findWl, hwf, Option.map_eq_none', ih]

theorem findWl_of_mem {w : typeWhitelist} {l : List Arg} {a : Arg}
    (ha : a ∈ l) (hw : isWhitelisted w a = true) : ∃ j, findWl w l = some j := by
  rw [← Option.ne_none_iff_exists', Ne, findWl_eq_none_iff]
  intro h
  rw [h a ha] at hw
  cases hw

theorem checkKey_pos_mem {name : String} {offset i : Nat} {a : Arg} {d : Diag}
    (h : d ∈ checkKey name offset i a) :
    d.pos = a.pos ∧ ¬(a.value = none ∧ a.typ = none) := by
  unfold checkKey at h
  by_cases hi : i % 2 ≠ 0
  · simp [hi] at h
  · rw [if_neg hi] at h
    match hv : a.value with
    | some k =>
      rw [hv] at h
      constructor
      · by_cases hk : k ≠ ConstKind.string
        · simp [hk] at h; rw [h]
        · simp [hk] at h
      · simp [hv]
    | none =>
      rw [hv] at h
      match ht : a.typ with
      | some t =>
        rw [ht] at h
        constructor
        · by_cases hu : t.underlyingString = true
          · simp [hu] at h
          · simp [hu] at h; rw [h]
        · simp [ht]
      | none => rw [ht] at h; simp at h

theorem mem_keyDiags_spec {name : String} {offset : Nat} {d : Diag} :
    ∀ (l : List Arg) (i : Nat), d ∈ keyDiags name offset i l →
      ∃ j a, l[j]? = some a ∧ d ∈ checkKey name offset (i + j) a := by
  intro l
  induction l with
  | nil => intro i h; simp [keyDiags] at h
  | cons a rest ih =>
    intro i h
    rw [keyDiags, List.mem_append] at h
    rcases h with h | h
    · exact ⟨0, a, by simp, by simpa using h⟩
    · obtain ⟨j, b, hb, hd⟩ := ih (i + 1) h
      exact ⟨j + 1, b, by simpa using hb, by rw [show i + (j + 1) = i + 1 + j by omega]; exact hd⟩

theorem mem_of_getElem?_arg {l : List Arg} {j : Nat} {a : Arg} (h : l[j]? = some a) :
    a ∈ l := by
  obtain ⟨hj, rfl⟩ := List.getElem?_eq_some.mp h
  exact List.getElem_mem ..

theorem splitLast_eq_none_iff {c : Char} : ∀ {l : List Char}, splitLast c l = none ↔ c ∉ l := by
  intro l
  induction l with
  | nil => simp [splitLast]
  | cons x xs ih =>
    rw [splitLast]
    cases hs : splitLast c xs with
    | some pq =>
      have hc : c ∈ xs := by
        by_contra hc
        rw [← ih] at hc
        rw [hc] at hs
        cases hs
      simp [List.mem_cons, hc]
    | none =>
      have hc : c ∉ xs := ih.mp hs
      by_cases hx : x = c
      · subst hx
        simp [List.mem_cons]
      · simp only [if_neg hx]
        simp [List.mem_cons, hc]
        exact fun h => hx h.symm

theorem splitLast_eq_some_iff {c : Char} :
    ∀ {l p q : List Char}, splitLast c l = some (p, q) ↔ l = p ++ c :: q ∧ c ∉ q := by
  intro l
  induction l with
  | nil =>
    intro p q
    constructor
    · intro h; cases h
    · rintro ⟨h, -⟩; exact absurd h (by simp)
  | cons x xs ih =>
    intro p q
    rw [splitLast]
    cases hs : splitLast c xs with
    | some pq =>
      obtain ⟨a, b⟩ := pq
      obtain ⟨hxs, hcb⟩ := (ih (p := a) (q := b)).mp hs
      simp only [Option.some.injEq, Prod.mk.injEq]
      constructor
      · rintro ⟨hp, hq⟩
        subst hp; subst hq
        exact ⟨by rw [hxs]; rfl, hcb⟩
      · rintro ⟨heq, hq⟩
        cases p with
        | nil =>
          simp only [List.nil_append] at heq
          injection heq with hxc hxsq
          exact absurd (by rw [← hxsq, hxs]; simp : c ∈ q) hq
        | cons y p' =>
          injection heq with hxy hxs'
          have h2 := (ih (p := p') (q := q)).mpr ⟨hxs', hq⟩
          rw [hs] at h2
          simp only [Option.some.injEq, Prod.mk.injEq] at h2
          exact ⟨by rw [hxy, h2.1], h2.2⟩
    | none =>
      have hc : c ∉ xs := splitLast_eq_none_iff.mp hs
      by_cases hx : x = c
      · rw [if_pos hx]
        constructor
        · intro h
          injection h with h1
          injection h1 with hp hq
          subst hp; subst hq
          exact ⟨by simp [hx], hc⟩
        · rintro ⟨heq, hq⟩
          cases p with
          | nil =>
            simp only [List.nil_append] at heq
            injection heq with hxc hxsq
            rw [hxsq]
          | cons y p' =>
            injection heq with hxy hxs'
            exact absurd (by rw [hxs']; simp : c ∈ xs) hc
      · rw [if_neg hx]
        constructor
        · intro h; cases h
        · rintro ⟨heq, hq⟩
          exfalso
          cases p with
          | nil =>
            simp only [List.nil_append] at heq
            injection heq with hxc hxsq
            exact hx hxc
          | cons y p' =>
            injection heq with hxy hxs'
            exact hc (by rw [hxs']; simp)

theorem checkKey_eq_classSpec {name : String} {offset i : Nat} {a : Arg}
    (h : i % 2 = 0 → a.value = none → a.typ.isSome) :
    checkKey name offset i a = keyClassSpec name offset i a := by
  unfold checkKey keyClassSpec
  by_cases hi : i % 2 ≠ 0
  · simp [hi]
  · rw [if_neg hi, if_neg hi]
    match hv : a.value with
    | some ConstKind.string => simp
    | some ConstKind.unknown | some ConstKind.bool | some ConstKind.int
    | some ConstKind.float | some ConstKind.complex => simp
    | none =>
      have : a.typ.isSome := h (by omega) hv
      match ht : a.typ with
      | some t => simp [typeString]
      | none => rw [ht] at this; cases this

theorem keyDiags_eq_spec {name : String} {offset : Nat} :
    ∀ (l : List Arg) (i : Nat), keysHaveInfo i l = true →
      keyDiags name offset i l = keyDiagsSpec name offset i l := by
  intro l
  induction l with
  | nil => intro i _; rfl
  | cons a rest ih =>
    intro i h
    rw [keysHaveInfo, Bool.and_eq_true] at h
    rw [keyDiags, keyDiagsSpec, ih (i + 1) h.2, checkKey_eq_classSpec]
    intro hi hv
    have := h.1
    simp [hi, hv] at this
    simpa using this

/-! Validation of the regex embeddings against the repository's own test
vectors (`pairs_test.go` / `interface_test.go`). -/

example : funcOffsetMatch ".Log=0" = some ("", "", "Log", "0") := by decide
example : funcOffsetMatch "go.zr.org/common/go/errors/details.Pairs.AddPairs=1" =
    some ("go.zr.org/common/go/errors/details", "Pairs", "AddPairs", "1") := by decide
example : funcOffsetMatch "go.zr.org/common/go/errors.Wrap=2" =
    some ("go.zr.org/common/go/errors", "", "Wrap", "2") := by decide
example : funcOffsetMatch "wrong" = none := by decide
example : funcOffsetMatch "a/b.Y.Z=0" = some ("a/b", "Y", "Z", "0") := by decide
example : funcOffsetMatch "a/b.X=1" = some ("a/b", "", "X", "1") := by decide
example : funcOffsetSet [] ".Log=0" = Except.ok [(funcSelector.mk "" "" "Log", 0)] := by rfl
example : funcOffsetSet [] ".wrong=999999999999999999999999999999999999" =
    Except.error "strconv.Atoi: parsing \"999999999999999999999999999999999999\": value out of range" := by
  rfl

/-! ## Claim theorems -/

/-- C7: for every matched call whose total argument count is at most the
matched offset (zero relevant arguments), `validate` (`argsCorrect`) emits
zero diagnostics. -/
theorem C7_no_relevant_args (w : typeWhitelist) (name : String) (offset callPos : Nat)
    (args : List Arg) (h : args.length ≤ offset) :
    argsCorrect w name offset callPos args = [] := by
  simp [argsCorrect, h]

theorem C7_no_relevant_args_wit :
    ([exStrKey 1, exStrVar 2] : List Arg).length ≤ 2 ∧
      argsCorrect exWl "go.zr.org/common/go/errors.Wrap" 2 0 [exStrKey 1, exStrVar 2] = [] :=
  ⟨by decide, C7_no_relevant_args exWl "go.zr.org/common/go/errors.Wrap" 2 0
    [exStrKey 1, exStrVar 2] (by decide)⟩

/-- C1: for every matched call whose relevant-argument count is odd and
which does not satisfy the whitelist single-argument exception,
`argsCorrect` emits exactly one arity diagnostic whose message uses the
*total* argument count, `"%d args passed to %s; must be even"`, and nothing
else. -/
theorem C1_arity_diag (w : typeWhitelist) (name : String) (offset callPos : Nat)
    (args : List Arg)
    (hodd : (args.length - offset) % 2 = 1)
    (hexc : ¬(args.length - offset = 1 ∧ headWhitelisted w (args.drop offset) = true)) :
    argsCorrect w name offset callPos args = [⟨callPos, arityMsg args.length name⟩] := by
  have h0 : ¬(args.length ≤ offset) := by omega
  have h2 : (args.length - offset) % 2 ≠ 0 := by omega
  simp [argsCorrect, h0, hexc, h2]

theorem C1_arity_diag_wit :
    (([exStrKey 1, exStrVar 2, exStrKey 3] : List Arg).length - 0) % 2 = 1 ∧
      ¬(([exStrKey 1, exStrVar 2, exStrKey 3] : List Arg).length - 0 = 1 ∧
        headWhitelisted exWl (List.drop 0 [exStrKey 1, exStrVar 2, exStrKey 3]) = true) ∧
      argsCorrect exWl "a/b.X" 0 9 [exStrKey 1, exStrVar 2, exStrKey 3] =
        [⟨9, arityMsg 3 "a/b.X"⟩] :=
  ⟨by decide, by decide,
    C1_arity_diag exWl "a/b.X" 0 9 [exStrKey 1, exStrVar 2, exStrKey 3] (by decide) (by decide)⟩

/-- C2: a matched call with exactly one relevant argument whose static type
is a registered whitelisted type — directly a named type or a pointer to a
named type — produces zero diagnostics. -/
theorem C2_whitelist_single (w : typeWhitelist) (name : String) (offset callPos : Nat)
    (args : List Arg) (a : Arg) (t : GoType) (pn : whitelistableType)
    (hrel : args.drop offset = [a])
    (ht : a.typ = some t)
    (hshape : t.shape = TypeShape.named pn ∨ t.shape = TypeShape.pointer (some pn))
    (hmem : wlMem w pn = true) :
    argsCorrect w name offset callPos args = [] := by
  have hlen : args.length - offset = 1 := by
    have := congrArg List.length hrel
    simpa [List.length_drop] using this
  have hwl : isWhitelisted w a = true := by
    rcases hshape with h | h <;> simp [isWhitelisted, ht, h, hmem]
  have hhead : headWhitelisted w (args.drop offset) = true := by
    rw [hrel]; simpa [headWhitelisted] using hwl
  have h0 : ¬(args.length ≤ offset) := by omega
  simp [argsCorrect, h0, hlen, hhead]

theorem C2_whitelist_single_wit :
    List.drop 1 [exStrKey 1, exPairs 2] = [exPairs 2] ∧
      argsCorrect exWl "p.X" 1 0 [exStrKey 1, exPairs 2] = [] :=
  ⟨by decide,
    C2_whitelist_single exWl "p.X" 1 0 [exStrKey 1, exPairs 2] (exPairs 2)
      ⟨TypeShape.named ⟨"p", "Pairs"⟩, false, "p.Pairs"⟩ ⟨"p", "Pairs"⟩
      (by decide) rfl (Or.inl rfl) (by decide)⟩

/-- C3 counterexample: a call with three relevant arguments (more than one),
one of which is whitelisted, yields the *arity* diagnostic, not a
whitelist-mixing diagnostic — the parity check precedes the mixing scan, so
the claim as stated fails on odd relevant counts. -/
theorem C3_mixing_counterexample :
    argsCorrect exWl "a/b.X" 0 4 [exPairs 1, exStrKey 2, exStrKey 3] =
        [⟨4, arityMsg 3 "a/b.X"⟩] ∧
      isWhitelisted exWl (exPairs 1) = true ∧
      arityMsg 3 "a/b.X" ≠ mixingMsg 0 "a/b.X" ∧
      arityMsg 3 "a/b.X" ≠ mixingMsg 1 "a/b.X" ∧
      arityMsg 3 "a/b.X" ≠ mixingMsg 2 "a/b.X" :=
  ⟨by decide, by decide, by decide, by decide, by decide⟩

/-- C3 (amended): for every matched call with more than one relevant
argument and an *even* relevant count, where at least one relevant argument
resolves to a whitelisted type, `argsCorrect` emits exactly one
whitelist-mixing diagnostic and no other diagnostics. -/
theorem C3_mixing_amended (w : typeWhitelist) (name : String) (offset callPos : Nat)
    (args : List Arg)
    (heven : (args.length - offset) % 2 = 0)
    (hgt : 1 < args.length - offset)
    (hex : ∃ a ∈ args.drop offset, isWhitelisted w a = true) :
    ∃ j, findWl w (args.drop offset) = some j ∧
      argsCorrect w name offset callPos args = [⟨callPos, mixingMsg (j + offset) name⟩] := by
  obtain ⟨a, ha, hw⟩ := hex
  obtain ⟨j, hj⟩ := findWl_of_mem ha hw
  have h0 : ¬(args.length ≤ offset) := by omega
  have h1 : ¬(args.length - offset = 1 ∧ headWhitelisted w (args.drop offset) = true) := by
    rintro ⟨h, -⟩; omega
  have h2 : ¬((args.length - offset) % 2 ≠ 0) := by omega
  exact ⟨j, hj, by simp [argsCorrect, h0, h1, h2, hj]⟩

theorem C3_mixing_amended_wit :
    argsCorrect exWl "p.X" 0 0 [exStrKey 1, exPairs 2] = [⟨0, mixingMsg 1 "p.X"⟩] := by
  have h := C3_mixing_amended exWl "p.X" 0 0 [exStrKey 1, exPairs 2]
    (by decide) (by decide) ⟨exPairs 2, by decide, by decide⟩
  obtain ⟨j, hj, heq⟩ := h
  have hf : findWl exWl (List.drop 0 [exStrKey 1, exPairs 2]) = some 1 := by decide
  rw [hf] at hj
  cases hj
  exact heq

/-- C4: for every matched call with an even relevant count of at least 2,
if some relevant argument resolves to a whitelisted type then `argsCorrect`
emits exactly the one diagnostic
`"arg %d to %s is a whitelisted type; should pass one or none"`, whose index
is the (first) whitelisted argument's position in the full argument list
(relevant index plus offset), and performs no key validation. -/
theorem C4_mixing_diag (w : typeWhitelist) (name : String) (offset callPos : Nat)
    (args : List Arg) (j : Nat)
    (heven : (args.length - offset) % 2 = 0)
    (hgt : 2 ≤ args.length - offset)
    (hfind : findWl w (args.drop offset) = some j) :
    argsCorrect w name offset callPos args = [⟨callPos, mixingMsg (j + offset) name⟩] ∧
      ∃ a, (args.drop offset)[j]? = some a ∧ isWhitelisted w a = true := by
  have h0 : ¬(args.length ≤ offset) := by omega
  have h1 : ¬(args.length - offset = 1 ∧ headWhitelisted w (args.drop offset) = true) := by
    rintro ⟨h, -⟩; omega
  have h2 : ¬((args.length - offset) % 2 ≠ 0) := by omega
  exact ⟨by simp [argsCorrect, h0, h1, h2, hfind], findWl_some_spec hfind⟩

theorem C4_mixing_diag_wit :
    argsCorrect exWl "p.X" 1 5 [exStrKey 1, exStrKey 2, exPairsPtr 3] =
      [⟨5, mixingMsg 2 "p.X"⟩] :=
  (C4_mixing_diag exWl "p.X" 1 5 [exStrKey 1, exStrKey 2, exPairsPtr 3] 1
    (by decide) (by decide) (by decide)).1

/-- C5: a matched call that reaches key validation (even relevant count, no
whitelisted relevant argument) yields exactly the spec's independent
per-key-position classification: string constants and string-typed
expressions are silent, other constants get the constant-message diagnostic,
other typed expressions get the expression-message diagnostic, and value
positions are never checked — several key diagnostics may arise from one
call.  Stated under the front-end contract that key-position arguments carry
a constant value or a static type. -/
theorem C5_key_validation (w : typeWhitelist) (name : String) (offset callPos : Nat)
    (args : List Arg)
    (hlt : offset < args.length)
    (heven : (args.length - offset) % 2 = 0)
    (hnw : ∀ a ∈ args.drop offset, isWhitelisted w a = false)
    (hinfo : keysHaveInfo 0 (args.drop offset) = true) :
    argsCorrect w name offset callPos args = keyDiagsSpec name offset 0 (args.drop offset) := by
  have h0 : ¬(args.length ≤ offset) := by omega
  have h1 : ¬(args.length - offset = 1 ∧ headWhitelisted w (args.drop offset) = true) := by
    rintro ⟨h, -⟩; omega
  have h2 : ¬((args.length - offset) % 2 ≠ 0) := by omega
  have hfw : findWl w (args.drop offset) = none := findWl_eq_none_iff.mpr hnw
  simp only [argsCorrect, if_neg h0, if_neg h1, if_neg h2, hfw]
  exact keyDiags_eq_spec _ _ hinfo

theorem C5_key_validation_wit :
    argsCorrect exWl "a/b.X" 0 0
        [exStrKey 1, exInfoless 2, exIntConst 3, exStrKey 4,
         exStrVar 5, exStrKey 6, exFloatExpr 7, exStrKey 8] =
      keyDiagsSpec "a/b.X" 0 0
        [exStrKey 1, exInfoless 2, exIntConst 3, exStrKey 4,
         exStrVar 5, exStrKey 6, exFloatExpr 7, exStrKey 8] ∧
    keyDiagsSpec "a/b.X" 0 0
        [exStrKey 1, exInfoless 2, exIntConst 3, exStrKey 4,
         exStrVar 5, exStrKey 6, exFloatExpr 7, exStrKey 8] =
      [⟨3, constMsg 2 "a/b.X" "int"⟩, ⟨7, exprMsg 6 "a/b.X" "float64"⟩] :=
  ⟨C5_key_validation exWl "a/b.X" 0 0
      [exStrKey 1, exInfoless 2, exIntConst 3, exStrKey 4,
       exStrVar 5, exStrKey 6, exFloatExpr 7, exStrKey 8]
      (by decide) (by decide) (by decide) (by decide),
    by decide⟩

/-- C10 (implicit): an argument that is neither a compile-time constant nor
carries any static type information is silently accepted by key validation —
no diagnostic emitted by the call refers to it (its source position never
appears among the diagnostics, provided its position is distinct from the
other arguments' and the call's). -/
theorem C10_infoless_key_silent (w : typeWhitelist) (name : String)
    (offset callPos i : Nat) (args : List Arg) (a : Arg)
    (hidx : args[offset + i]? = some a)
    (heven : i % 2 = 0)
    (hval : a.value = none) (htyp : a.typ = none)
    (hinj : ∀ b ∈ args, b.pos = a.pos → b = a)
    (hcall : callPos ≠ a.pos) :
    (argsCorrect w name offset callPos args).all (fun d => d.pos != a.pos) = true := by
  rw [List.all_eq_true]
  intro d hd
  rw [bne_iff_ne]
  intro hdp
  unfold argsCorrect at hd
  by_cases h0 : args.length ≤ offset
  · simp [h0] at hd
  · rw [if_neg h0] at hd
    by_cases h1 : args.length - offset = 1 ∧ headWhitelisted w (args.drop offset) = true
    · simp [h1] at hd
    · rw [if_neg h1] at hd
      by_cases h2 : (args.length - offset) % 2 ≠ 0
      · rw [if_pos h2] at hd
        simp at hd
        rw [hd] at hdp
        exact hcall hdp
      · rw [if_neg h2] at hd
        match hfw : findWl w (args.drop offset) with
        | some j =>
          rw [hfw] at hd
          simp at hd
          rw [hd] at hdp
          exact hcall hdp
        | none =>
          rw [hfw] at hd
          obtain ⟨j, b, hb, hmem⟩ := mem_keyDiags_spec _ _ hd
          obtain ⟨hbp, hbinfo⟩ := checkKey_pos_mem hmem
          have hbmem : b ∈ args := List.mem_of_mem_drop (mem_of_getElem?_arg hb)
          have : b = a := hinj b hbmem (by rw [← hbp, hdp])
          rw [this] at hbinfo
          exact hbinfo ⟨hval, htyp⟩

theorem C10_infoless_key_silent_wit :
    ([exStrKey 1, exInfoless 10, exStrVar 3, exStrKey 4] : List Arg)[1 + 0]? =
        some (exInfoless 10) ∧
      (argsCorrect exWl "m" 1 0 [exStrKey 1, exInfoless 10, exStrVar 3, exStrKey 4]).all
        (fun d => d.pos != (exInfoless 10).pos) = true :=
  ⟨by decide,
    C10_infoless_key_silent exWl "m" 1 0 0
      [exStrKey 1, exInfoless 10, exStrVar 3, exStrKey 4] (exInfoless 10)
      (by decide) (by decide) rfl rfl (by decide) (by decide)⟩

/-- C6: for a method call on a named receiver, the generic-method selector
(empty package and type) is probed first and its offset is used even when a
concrete-method selector for the same function name is also registered; the
concrete selector is probed only when the generic one is absent; when
neither is present the call is not matched and no diagnostics are
emitted. -/
theorem C6_generic_method_precedence (o : funcOffset) (w : typeWhitelist)
    (r : whitelistableType) (fn selStr : String) (callPos : Nat) (args : List Arg) :
    (∀ off, flookup o ⟨"", "", fn⟩ = some off →
      matchCall o (Callee.method (some r) fn selStr) = some (off, selStr)) ∧
    (∀ off coff, flookup o ⟨"", "", fn⟩ = some off →
      flookup o ⟨r.pkg, r.typ, fn⟩ = some coff →
      matchCall o (Callee.method (some r) fn selStr) = some (off, selStr)) ∧
    (∀ coff, flookup o ⟨"", "", fn⟩ = none →
      flookup o ⟨r.pkg, r.typ, fn⟩ = some coff →
      matchCall o (Callee.method (some r) fn selStr) = some (coff, selStr)) ∧
    (flookup o ⟨"", "", fn⟩ = none → flookup o ⟨r.pkg, r.typ, fn⟩ = none →
      matchCall o (Callee.method (some r) fn selStr) = none ∧
      analyzeCall o w (Callee.method (some r) fn selStr) callPos args = []) := by
  refine ⟨?_, ?_, ?_, ?_⟩
  · intro off hg
    simp [matchCall, hg]
  · intro off coff hg hc
    simp [matchCall, hg]
  · intro coff hg hc
    simp [matchCall, hg, hc]
  · intro hg hc
    constructor
    · simp [matchCall, hg, hc]
    · simp [analyzeCall, matchCall, hg, hc]

theorem C6_generic_method_precedence_wit :
    matchCall exOffBoth (Callee.method (some ⟨"a/b", "Y"⟩) "Log" "m") = some (1, "m") ∧
      matchCall exOffConc (Callee.method (some ⟨"a/b", "Y"⟩) "Log" "m") = some (2, "m") ∧
      analyzeCall ([] : funcOffset) exWl (Callee.method (some ⟨"a/b", "Y"⟩) "Log" "m") 0
        [exIntConst 1] = [] :=
  ⟨(C6_generic_method_precedence exOffBoth exWl ⟨"a/b", "Y"⟩ "Log" "m" 0 []).2.1 1 2
      (by decide) (by decide),
    (C6_generic_method_precedence exOffConc exWl ⟨"a/b", "Y"⟩ "Log" "m" 0 []).2.2.1 2
      (by decide) (by decide),
    ((C6_generic_method_precedence ([] : funcOffset) exWl ⟨"a/b", "Y"⟩ "Log" "m" 0
      [exIntConst 1]).2.2.2 rfl rfl).2⟩

/-- C8 counterexample: `"a.b/c"` contains an embedded `.` separator (at
interior index 1), yet `typeWhitelist.Set` rejects it with the
configuration error — the final segment after the last dot may not contain
`/`, so the claim's "fails exactly when the spec has no embedded `.`" is
false. -/
theorem C8_whitelist_grammar_counterexample :
    typeWhitelistSet [] "a.b/c" =
        Except.error "invalid type whitelist; should be of form <pkg>.<type>" ∧
      '.' ∈ "a.b/c".data ∧ "a.b/c".data[1]? = some '.' :=
  ⟨by rfl, by decide, by decide⟩

/-- C8 (amended): `typeWhitelist.Set` succeeds exactly on strings of the
form `<pkg>.<type>` whose final segment (after the last `.`) is nonempty and
contains neither `.` nor `/`; the package is everything up to that final
`.` (and may itself contain further dots and slashes) and the type is the
final segment.  On any other string — including some with an embedded `.` —
it fails with the configuration error. -/
theorem C8_whitelist_grammar_amended (w : typeWhitelist) (v : String) :
    (∀ p q : List Char, wlMatch v.data = some (p, q) ↔
      (v.data = p ++ '.' :: q ∧ q ≠ [] ∧ ∀ ch ∈ q, ch ≠ '.' ∧ ch ≠ '/')) ∧
    (∀ p q : List Char, wlMatch v.data = some (p, q) →
      typeWhitelistSet w v = Except.ok (⟨p.asString, q.asString⟩ :: w)) ∧
    (wlMatch v.data = none →
      typeWhitelistSet w v =
        Except.error "invalid type whitelist; should be of form <pkg>.<type>") := by
  refine ⟨?_, ?_, ?_⟩
  · intro p q
    cases hs : splitLast '.' v.data with
    | none =>
      have hw : wlMatch v.data = none := by unfold wlMatch; rw [hs]
      rw [hw]
      constructor
      · intro h; cases h
      · rintro ⟨heq, hne, hall⟩
        have hsp : splitLast '.' v.data = some (p, q) :=
          splitLast_eq_some_iff.mpr ⟨heq, fun hc => (hall '.' hc).1 rfl⟩
        rw [hs] at hsp
        cases hsp
    | some pq =>
      have hw : wlMatch v.data =
          if pq.2 ≠ [] ∧ ∀ ch ∈ pq.2, ch ≠ '.' ∧ ch ≠ '/' then some pq else none := by
        unfold wlMatch; rw [hs]
      obtain ⟨hxs, hdot⟩ := (splitLast_eq_some_iff (p := pq.1) (q := pq.2)).mp hs
      by_cases hcond : pq.2 ≠ [] ∧ ∀ ch ∈ pq.2, ch ≠ '.' ∧ ch ≠ '/'
      · rw [hw, if_pos hcond]
        constructor
        · intro h
          injection h with h1
          subst h1
          exact ⟨hxs, hcond.1, hcond.2⟩
        · rintro ⟨heq, hne, hall⟩
          have hsp : splitLast '.' v.data = some (p, q) :=
            splitLast_eq_some_iff.mpr ⟨heq, fun hc => (hall '.' hc).1 rfl⟩
          rw [hs] at hsp
          injection hsp with h1
          rw [h1]
      · rw [hw, if_neg hcond]
        constructor
        · intro h; cases h
        · rintro ⟨heq, hne, hall⟩
          have hsp : splitLast '.' v.data = some (p, q) :=
            splitLast_eq_some_iff.mpr ⟨heq, fun hc => (hall '.' hc).1 rfl⟩
          rw [hs] at hsp
          injection hsp with h1
          subst h1
          exact absurd ⟨hne, hall⟩ hcond
  · intro p q h
    simp [typeWhitelistSet, h]
  · intro h
    simp [typeWhitelistSet, h]

theorem C8_whitelist_grammar_amended_wit :
    typeWhitelistSet [] "go.zr.org/common/go/errors/details.Pairs" =
      Except.ok [⟨"go.zr.org/common/go/errors/details", "Pairs"⟩] :=
  (C8_whitelist_grammar_amended [] "go.zr.org/common/go/errors/details.Pairs").2.1
    "go.zr.org/common/go/errors/details".data "Pairs".data (by decide)

/-- C9: `funcOffset.Set` fails exactly when the specification does not
match the rule regex (optional non-greedy package path, optional `.<Type>`,
mandatory `.<Function>=<digits>`) or the digit run overflows the 64-bit
`int` range; on success it stores the parsed selector at the parsed offset,
and re-registering the same selector overwrites the prior offset (the fresh
entry shadows the old one on lookup). -/
theorem C9_parse_rule (o : funcOffset) (v : String) :
    (funcOffsetMatch v = none →
      funcOffsetSet o v =
        Except.error "invalid func offset; should be of form [pkg[.type]].<func>=<offset>") ∧
    (∀ p t f d, funcOffsetMatch v = some (p, t, f, d) →
      (∀ e, goAtoi d = Except.error e → funcOffsetSet o v = Except.error e) ∧
      (∀ n, goAtoi d = Except.ok n →
        funcOffsetSet o v = Except.ok ((⟨p, t, f⟩, n) :: o) ∧
        flookup ((⟨p, t, f⟩, n) :: o) ⟨p, t, f⟩ = some n)) ∧
    (∀ (d : String), (∃ e, goAtoi d = Except.error e) ↔ maxInt64 < digitsToNat d.data) ∧
    (∀ (o' : funcOffset) (sel : funcSelector) (n1 n2 : Nat),
      flookup ((sel, n2) :: (sel, n1) :: o') sel = some n2) := by
  refine ⟨?_, ?_, ?_, ?_⟩
  · intro h
    simp [funcOffsetSet, h]
  · intro p t f d h
    constructor
    · intro e he
      simp [funcOffsetSet, h, he]
    · intro n hn
      exact ⟨by simp [funcOffsetSet, h, hn], by simp [flookup]⟩
  · intro d
    unfold goAtoi
    by_cases hd : digitsToNat d.data ≤ maxInt64
    · simp [hd]
    · simp [hd]
      omega
  · intro o' sel n1 n2
    simp [flookup]

theorem C9_parse_rule_wit :
    funcOffsetSet [] "a/b.Y.Z=0" = Except.ok [(⟨"a/b", "Y", "Z"⟩, 0)] ∧
      flookup [(⟨"a/b", "Y", "Z"⟩, 0)] ⟨"a/b", "Y", "Z"⟩ = some 0 :=
  ((C9_parse_rule [] "a/b.Y.Z=0").2.1 "a/b" "Y" "Z" "0" (by decide)).2 0 (by rfl)

end Splinter
